import Mathlib

/-!
Verification development for the hydra-s3-upload program (src/main.go).

The program is a three-stage pipeline: `dirToTar` packs a directory into a
gzip-compressed tar stream, `requestCreds` fetches short-lived S3 credentials
from the Hydra service over HTTPS, and `main` rewinds the archive file and
hands it to the S3 uploader.

The embedding below translates the Go source into pure Lean functions.
File-system contents and I/O outcomes (open failures, read failures, sink
write failures) are part of the input data, so that the archiver is a total
function from a modelled world to its result.  The tar and gzip layers are
modelled at the level of entries and finalization markers, mirroring the
behaviour of Go's archive/tar and compress/gzip writers (including the
sticky-error and deferred-Close semantics that the source relies on).
-/

namespace HydraS3

/-- Kind of a directory entry as reported by lstat via `filepath.Walk`.
The Go code never inspects the kind beyond `info.IsDir()`; the kind is kept
in the model so that theorems can quantify over non-regular files. -/
inductive FileKind where
  | regular
  | symlink
  | device
  | socket
  | fifo
deriving DecidableEq, Repr

/-- One non-directory node of the source tree, together with the outcomes of
every I/O operation `dirToTar` performs on it:
* `size`, `mode`, `modTime`: the lstat metadata `filepath.Walk` hands to the
  callback (`info.Size()`, `info.Mode()`, `info.ModTime()`);
* `content`: the bytes reading the opened file yields;
* `relOk`: whether `filepath.Rel(dirPath, fullPath)` succeeds (it always does
  for paths produced by `filepath.Walk`, but the callback has a branch for the
  failure case, which claim C9 is about);
* `openOk`: whether `os.Open(fullPath)` succeeds;
* `readErrAt`: `some n` when reading the file fails after producing `n` bytes;
* `hdrWriteOk`: whether the underlying sink write during
  `tarWriter.WriteHeader` succeeds;
* `bodyWriteErrAt`: `some k` when the sink write during `io.Copy` of the body
  fails after `k` content bytes have reached the sink. -/
structure FileMeta where
  kind : FileKind
  size : Nat
  mode : Nat
  modTime : Int
  content : List Nat
  relOk : Bool
  openOk : Bool
  readErrAt : Option Nat
  hdrWriteOk : Bool
  bodyWriteErrAt : Option Nat
deriving DecidableEq, Repr

/-- A node of the source directory tree.  Children of a directory are stored
in the order Go's `filepath.Walk` enumerates them (`readDirNames` returns the
names sorted, so the stored order is that sorted order). -/
inductive FSNode where
  | file (name : String) (meta : FileMeta)
  | dir (name : String) (children : List FSNode)

/-- One callback invocation of `filepath.Walk`: either a directory visit or a
file visit.  `rel` is the path of the visited node relative to the walk root,
as components (Go joins them with the path separator). -/
inductive Visit where
  | dirV (rel : List String)
  | fileV (rel : List String) (meta : FileMeta)
deriving DecidableEq, Repr

mutual
/-- The visits `filepath.Walk` makes below (and including) one node located
at relative path `rel ++ [name]`: the node itself first, then, for a
directory, the visits of its children in stored order. -/
def visitsOf (rel : List String) : FSNode → List Visit
  | .file name meta => [.fileV (rel ++ [name]) meta]
  | .dir name cs => .dirV (rel ++ [name]) :: visitsOfChildren (rel ++ [name]) cs

/-- The visits of a list of sibling nodes, in order. -/
def visitsOfChildren (rel : List String) : List FSNode → List Visit
  | [] => []
  | t :: ts => visitsOf rel t ++ visitsOfChildren rel ts
end

/-- The file visits in a visit list, i.e. the walk restricted to
non-directory entries, keeping walk order. -/
def fileVisits (vs : List Visit) : List (List String × FileMeta) :=
  vs.filterMap fun v =>
    match v with
    | .fileV rel meta => some (rel, meta)
    | .dirV _ => none

/-- All non-directory entries under a root (given by its child list), with
their root-relative paths, in walk order. -/
def walkFiles (root : List FSNode) : List (List String × FileMeta) :=
  fileVisits (visitsOfChildren [] root)

/-- The tar header `dirToTar` builds for a file: name is the root-relative
path (components of the `filepath.Rel` result), and size, mode and
modification time are copied from the lstat info. -/
structure TarHeader where
  name : List String
  size : Nat
  mode : Nat
  modTime : Int
deriving DecidableEq, Repr

/-- One entry of the tar stream: a header followed by the body bytes that
were actually written for it. -/
structure TarEntry where
  header : TarHeader
  bytes : List Nat
deriving DecidableEq, Repr

/-- An entry is complete when exactly `header.size` body bytes were written,
which is what Go's tar writer requires before it accepts the next header or
writes the end-of-archive marker. -/
def entryComplete (e : TarEntry) : Bool :=
  e.bytes.length == e.header.size

/-- State of the tar writer: the fully flushed entries, the current entry
(header written, body possibly incomplete), and whether the end-of-archive
marker (two zero blocks) has been written. -/
structure TarState where
  entries : List TarEntry
  pending : Option TarEntry
  trailer : Bool
deriving DecidableEq, Repr

/-- Combined state of the writer stack `rawWriter <- gzip <- tar`:
`sinkCorrupt` records that an underlying write failed, which both makes the
byte stream unusable and sets the sticky error of the tar writer;
`gzipFooter` records that the gzip footer (CRC and length) was written. -/
structure WState where
  tar : TarState
  sinkCorrupt : Bool
  gzipFooter : Bool
deriving DecidableEq, Repr

/-- Writer state right after `gzip.NewWriter` and `tar.NewWriter`. -/
def initWState : WState :=
  { tar := { entries := [], pending := none, trailer := false }
    sinkCorrupt := false
    gzipFooter := false }

/-- The errors `dirToTar` and its walk callback can return. -/
inductive WalkErr where
  | dirOpenErr
  | fileOpenErr
  | missedBytesErr
  | headerWriteErr
  | tooLongErr
  | copyWriteErr
  | copyReadErr
deriving DecidableEq, Repr

/-- Go tar writer `Flush`: an error if the current entry is not fully
written ("missed writing ... bytes"); otherwise the current entry is done and
the writer is ready for the next header. -/
def tarFlush (t : TarState) : TarState × Option WalkErr :=
  match t.pending with
  | none => (t, none)
  | some e =>
    if entryComplete e then
      ({ t with entries := t.entries ++ [e], pending := none }, none)
    else (t, some .missedBytesErr)

/-- Go tar writer `WriteHeader`: returns the sticky error if a previous sink
write failed; otherwise flushes the current entry, then writes the header
bytes (which fail when the underlying write fails, modelled by `sinkOk`). -/
def tarWriteHeader (h : TarHeader) (sinkOk : Bool) (w : WState) :
    WState × Option WalkErr :=
  if w.sinkCorrupt then (w, some .headerWriteErr)
  else
    match tarFlush w.tar with
    | (t, some e) => ({ w with tar := t }, some e)
    | (t, none) =>
      if sinkOk then
        ({ w with tar := { t with pending := some { header := h, bytes := [] } } }, none)
      else ({ w with tar := t, sinkCorrupt := true }, some .headerWriteErr)

/-- `io.Copy(tarWriter, file)` for the file described by `meta`, right after
its header was written.  The reader produces `content` (truncated at
`readErrAt` if a read error strikes); the tar writer accepts at most the
header size (`ErrWriteTooLong` beyond it, after writing the allowed prefix);
the sink accepts at most `bodyWriteErrAt` bytes before failing.  A sink
failure wins over the too-long error at the same position, mirroring Go's
`regFileWriter.Write`; a read error is what `io.Copy` returns when the writes
all succeeded. -/
def copyToTar (meta : FileMeta) (w : WState) : WState × Option WalkErr :=
  match w.tar.pending with
  | none => (w, none)
  | some e =>
    let produced :=
      match meta.readErrAt with
      | some n => meta.content.take n
      | none => meta.content
    let capacity := e.header.size - e.bytes.length
    let attempted := min produced.length capacity
    let sinkCap :=
      match meta.bodyWriteErrAt with
      | some k => k
      | none => attempted
    let written := min attempted sinkCap
    let e2 : TarEntry := { e with bytes := e.bytes ++ produced.take written }
    if sinkCap < attempted then
      ({ w with tar := { w.tar with pending := some e2 }, sinkCorrupt := true },
        some .copyWriteErr)
    else if capacity < produced.length then
      ({ w with tar := { w.tar with pending := some e2 } }, some .tooLongErr)
    else if meta.readErrAt.isSome then
      ({ w with tar := { w.tar with pending := some e2 } }, some .copyReadErr)
    else
      ({ w with tar := { w.tar with pending := some e2 } }, none)

/-- The body of the walk callback for a non-directory visit, after the
`info.IsDir()` check: compute the relative path (`relResult` is the outcome
of `filepath.Rel`; on failure the callback returns nil, skipping the file),
open the file, write the tar header, copy the body. -/
def walkFileStep (relResult : Option (List String)) (meta : FileMeta)
    (w : WState) : WState × Option WalkErr :=
  match relResult with
  | none => (w, none)
  | some rel =>
    if meta.openOk then
      let h : TarHeader :=
        { name := rel, size := meta.size, mode := meta.mode, modTime := meta.modTime }
      match tarWriteHeader h meta.hdrWriteOk w with
      | (w2, some e) => (w2, some e)
      | (w2, none) => copyToTar meta w2
    else (w, some .fileOpenErr)

/-- One invocation of the walk callback: directories are skipped
(`return nil`), files go through `walkFileStep` with the `filepath.Rel`
outcome determined by `meta.relOk`. -/
def walkVisit (v : Visit) (w : WState) : WState × Option WalkErr :=
  match v with
  | .dirV _ => (w, none)
  | .fileV rel meta => walkFileStep (if meta.relOk then some rel else none) meta w

/-- `filepath.Walk`: run the callback on each visit in order, aborting the
walk at the first error and returning it. -/
def runWalk (vs : List Visit) (w : WState) : WState × Option WalkErr :=
  match vs with
  | [] => (w, none)
  | v :: rest =>
    match walkVisit v w with
    | (w2, none) => runWalk rest w2
    | (w2, some e) => (w2, some e)

/-- Go tar writer `Close` (run deferred): returns early on a sticky error
without writing anything; otherwise flushes the current entry and, if that
succeeds, writes the end-of-archive marker.  The deferred call discards the
returned error. -/
def tarClose (t : TarState) (sticky : Bool) : TarState :=
  if sticky then t
  else
    match tarFlush t with
    | (t2, none) => { t2 with trailer := true }
    | (t2, some _) => t2

/-- Go gzip writer `Close` (run deferred): flushes and writes the gzip
footer, which fails when the underlying sink has failed. -/
def gzipClose (w : WState) : WState :=
  if w.sinkCorrupt then w else { w with gzipFooter := true }

/-- Finalization events of `dirToTar`, used to state the ordering claims:
the two deferred `Close` calls, the writes they perform when they succeed,
and the return from `dirToTar` (`retEv true` means a nil error). -/
inductive FinalEvent where
  | tarCloseCall
  | tarMarker
  | gzipCloseCall
  | gzipFooterWrite
  | retEv (ok : Bool)
deriving DecidableEq, Repr

/-- The finalization trace of one `dirToTar` run with the given outcomes:
deferred closes run in LIFO order, so the tar writer is closed first, then
the gzip writer, and then the function returns. -/
def closeTrace (markered footered retOk : Bool) : List FinalEvent :=
  [.tarCloseCall] ++ (if markered then [.tarMarker] else [])
    ++ [.gzipCloseCall] ++ (if footered then [.gzipFooterWrite] else [])
    ++ [.retEv retOk]

/-- Result of one `dirToTar` run: the returned error, whether the writer
layers were created at all (they are not when `os.Open(dirPath)` fails),
the final writer state (the sink contents), and the finalization trace. -/
structure DTResult where
  err : Option WalkErr
  writersCreated : Bool
  ws : WState
  trace : List FinalEvent
deriving DecidableEq, Repr

/-- `dirToTar(dirPath, rawWriter)` from src/main.go: open the directory
(failure returns immediately, before any writer is created); create the gzip
and tar writers with deferred closes; `filepath.Walk` the tree, the root
directory itself being the first visit; return the walk error after the
deferred closes have run (tar first, then gzip). -/
def dirToTar (rootOpenOk : Bool) (root : List FSNode) : DTResult :=
  if rootOpenOk then
    match runWalk (Visit.dirV [] :: visitsOfChildren [] root) initWState with
    | (w1, e) =>
      let t1 := tarClose w1.tar w1.sinkCorrupt
      let w2 : WState := { w1 with tar := t1 }
      let w3 := gzipClose w2
      { err := e, writersCreated := true, ws := w3
        trace := closeTrace t1.trailer w3.gzipFooter e.isNone }
  else
    { err := some .dirOpenErr, writersCreated := false, ws := initWState
      trace := [.retEv false] }

/-- The sink contents decompress and parse as an archive exactly when no
underlying write failed, the end-of-archive marker and the gzip footer were
written, and no entry was left incomplete. -/
def archiveValid (r : DTResult) : Bool :=
  r.writersCreated && !r.ws.sinkCorrupt && r.ws.tar.trailer
    && r.ws.gzipFooter && r.ws.tar.pending == none

/-- Decompressing and parsing the sink contents: the entry list when the
archive is valid, nothing otherwise. -/
def parsedEntries (r : DTResult) : Option (List TarEntry) :=
  if archiveValid r then some r.ws.tar.entries else none

/-- A file on which every I/O operation of the archiver succeeds and whose
lstat size agrees with its content, i.e. a regular file that is readable and
unchanged during the walk, written to a working sink. -/
def cleanFile (m : FileMeta) : Bool :=
  m.relOk && m.openOk && m.readErrAt == none && m.hdrWriteOk
    && m.bodyWriteErrAt == none && m.content.length == m.size

/-- The archive entry `dirToTar` produces for a clean file: root-relative
path, lstat size, mode and modification time in the header, the file bytes
as the body. -/
def entryOf (p : List String × FileMeta) : TarEntry :=
  { header := { name := p.1, size := p.2.size, mode := p.2.mode, modTime := p.2.modTime }
    bytes := p.2.content }

/-! ## Credential client (`requestCreds`, `credsResponse`) -/

/-- The structured credential response of the Hydra service (`credsResponse`
in src/main.go), with the JSON field names of its struct tags. -/
structure credsResponse where
  bucketName : String
  secretKey : String
  accessKey : String
  sessionToken : String
  region : String
  key : String
deriving DecidableEq, Repr

/-- An HTTP response as `requestCreds` observes it: `statusCode` is
`resp.StatusCode`, `statusText` is `resp.Status` (for example
"500 Internal Server Error"), `body` is the response body. -/
structure HttpResponse where
  statusCode : Nat
  statusText : String
  body : String
deriving DecidableEq, Repr

/-- Outcome of `insecureClient.Do(req)`: either a transport error or a
response. -/
inductive HttpResult where
  | transportErr (msg : String)
  | response (r : HttpResponse)
deriving DecidableEq, Repr

/-- The HTTP request `requestCreds` builds: method, URL, body, the
Content-Type header it sets, and the basic-auth username and password. -/
structure HttpRequest where
  method : String
  url : String
  body : String
  contentType : String
  basicAuthUser : String
  basicAuthPass : String
deriving DecidableEq, Repr

/-- TLS configuration of the transport the credential client uses. -/
structure ClientConfig where
  insecureSkipVerify : Bool
deriving DecidableEq, Repr

/-- The errors `requestCreds` can return: `http.NewRequest` failure,
transport failure, the unexpected-status error, and a JSON decode failure. -/
inductive CredsError where
  | requestBuildErr (msg : String)
  | transportErr (msg : String)
  | statusErr (status : String)
  | jsonErr (msg : String)
deriving DecidableEq, Repr

/-- The human-readable message of a `requestCreds` error; the status case is
the `fmt.Errorf("Unexpected HTTP response status code: %s", resp.Status)`
format of the source. -/
def credsErrMsg : CredsError → String
  | .requestBuildErr m => m
  | .transportErr m => m
  | .statusErr s => "Unexpected HTTP response status code: " ++ s
  | .jsonErr m => m

/-- The request `requestCreds` builds: POST to the configured URL, the fixed
JSON body, Content-Type application/json, basic auth from the configured
username and password. -/
def buildCredsRequest (hydraURL hydraUser hydraPass : String) : HttpRequest :=
  { method := "POST"
    url := hydraURL
    body := "\x7b \"fileName\":\"TestFile\", \"isPrivate\": \"false\" \x7d"
    contentType := "application/json"
    basicAuthUser := hydraUser
    basicAuthPass := hydraPass }

/-- Result of one `requestCreds` call: the TLS configuration of the client it
used, the requests it actually sent, and its return value. -/
structure CredsCall where
  clientConfig : ClientConfig
  requests : List HttpRequest
  result : Except CredsError credsResponse
deriving Repr

/-- `requestCreds()` from src/main.go.  The configured endpoint, username and
password (the `HYDRA_URL`, `HYDRA_USER`, `HYDRA_PASS` environment variables)
are parameters; `urlOk` is whether `http.NewRequest` accepts the URL;
`send` is the transport (`insecureClient.Do`); `decode` is
`json.NewDecoder(resp.Body).Decode` into the `credsResponse` struct.
The client validates no TLS certificate (`InsecureSkipVerify: true`); a
non-200 status is rejected with the status in the error detail; the body is
decoded only on status 200. -/
def requestCreds (hydraURL hydraUser hydraPass : String) (urlOk : Bool)
    (send : HttpRequest → HttpResult)
    (decode : String → Except String credsResponse) : CredsCall :=
  let cfg : ClientConfig := { insecureSkipVerify := true }
  if urlOk then
    let req := buildCredsRequest hydraURL hydraUser hydraPass
    match send req with
    | .transportErr m => { clientConfig := cfg, requests := [req], result := .error (.transportErr m) }
    | .response r =>
      if r.statusCode ≠ 200 then
        { clientConfig := cfg, requests := [req], result := .error (.statusErr r.statusText) }
      else
        match decode r.body with
        | .error m => { clientConfig := cfg, requests := [req], result := .error (.jsonErr m) }
        | .ok c => { clientConfig := cfg, requests := [req], result := .ok c }
  else
    { clientConfig := cfg, requests := [], result := .error (.requestBuildErr "invalid request") }

/-! ## Uploader and main pipeline -/

/-- AWS credentials as built by `credsResponse.toAWSCredentials`. -/
structure AWSCredentials where
  accessKey : String
  secretKey : String
  sessionToken : String
deriving DecidableEq, Repr

/-- `toAWSCredentials`: static credentials from the access key, secret key
and session token of the response. -/
def credsResponse.toAWSCredentials (c : credsResponse) : AWSCredentials :=
  { accessKey := c.accessKey, secretKey := c.secretKey, sessionToken := c.sessionToken }

/-- An AWS session as built by `credsResponse.createSession`: the region and
credentials of the response. -/
structure Session where
  region : String
  creds : AWSCredentials
deriving DecidableEq, Repr

/-- `createSession`: a session with the response's region and static
credentials; `session.NewSession` can fail, modelled by `ok`. -/
def credsResponse.createSession (c : credsResponse) (ok : Bool) :
    Except String Session :=
  if ok then .ok { region := c.region, creds := c.toAWSCredentials }
  else .error "session error"

/-- The archive file handle: only its read/write position is relevant to the
claims (offset 0 is the start of the file). -/
structure SinkFile where
  pos : Nat
deriving DecidableEq, Repr

/-- One invocation of the S3 upload manager: the `UploadInput` fields
(bucket and key from the credential response, the file as body, observed at
its current position) and the session it runs under. -/
structure UploadCall where
  bucket : String
  key : String
  session : Session
  bodyPos : Nat
deriving DecidableEq, Repr

/-- `uploadFileToS3(s, creds, file)`: upload with `Bucket: creds.BucketName`,
`Key: creds.Key`, `Body: file`. -/
def uploadFileToS3 (s : Session) (creds : credsResponse) (file : SinkFile) :
    UploadCall :=
  { bucket := creds.bucketName, key := creds.key, session := s, bodyPos := file.pos }

/-- `credsResponse.uploadFile(f)`: create the session, then upload; returns
the upload invocations made (none when the session fails) and whether the
whole call failed (`transferOk` is the outcome of the transfer itself). -/
def credsResponse.uploadFile (c : credsResponse) (sessionOk transferOk : Bool)
    (f : SinkFile) : List UploadCall × Bool :=
  match c.createSession sessionOk with
  | .error _ => ([], false)
  | .ok s => ([uploadFileToS3 s c f], transferOk)

/-- The pipeline stages of `main`, in the order their log lines announce
them; `fatalEv` is `klog.Fatalln`, which terminates the process. -/
inductive PipeEvent where
  | createEv
  | archiveEv
  | credsEv
  | rewindEv
  | uploadEv
  | fatalEv
deriving DecidableEq, Repr

/-- Result of one `main` run: the stage trace, whether the process died with
`klog.Fatalln`, and the upload invocations that were made. -/
structure MainResult where
  trace : List PipeEvent
  fatal : Bool
  uploadCalls : List UploadCall
deriving DecidableEq, Repr

/-- World parameters of one `main` run: outcomes of creating the temporary
archive file, opening the source directory, the source tree itself, how many
bytes the archiver wrote to the file handle, the Hydra configuration and
transport, and the outcomes of seek, session creation and transfer. -/
structure MainParams where
  createOk : Bool
  rootOpenOk : Bool
  root : List FSNode
  archiveWritten : Nat
  hydraURL : String
  hydraUser : String
  hydraPass : String
  urlOk : Bool
  rewindOk : Bool
  sessionOk : Bool
  transferOk : Bool

/-- `main()` from src/main.go: create the temporary archive file, archive
the must-gather directory into it with `dirToTar`, request credentials from
Hydra with `requestCreds`, rewind the file to offset 0, and upload it; every
stage failure is `klog.Fatalln`, which stops the pipeline there. -/
def mainRun (p : MainParams) (send : HttpRequest → HttpResult)
    (decode : String → Except String credsResponse) : MainResult :=
  let tr := [PipeEvent.createEv]
  if p.createOk then
    let f : SinkFile := { pos := 0 }
    let ar := dirToTar p.rootOpenOk p.root
    let tr := tr ++ [PipeEvent.archiveEv]
    match ar.err with
    | some _ => { trace := tr ++ [.fatalEv], fatal := true, uploadCalls := [] }
    | none =>
      let f : SinkFile := { f with pos := f.pos + p.archiveWritten }
      let call := requestCreds p.hydraURL p.hydraUser p.hydraPass p.urlOk send decode
      let tr := tr ++ [PipeEvent.credsEv]
      match call.result with
      | .error _ => { trace := tr ++ [.fatalEv], fatal := true, uploadCalls := [] }
      | .ok creds =>
        let tr := tr ++ [PipeEvent.rewindEv]
        if p.rewindOk then
          let f : SinkFile := { f with pos := 0 }
          let tr := tr ++ [PipeEvent.uploadEv]
          match creds.uploadFile p.sessionOk p.transferOk f with
          | (calls, true) => { trace := tr, fatal := false, uploadCalls := calls }
          | (calls, false) => { trace := tr ++ [.fatalEv], fatal := true, uploadCalls := calls }
        else { trace := tr ++ [.fatalEv], fatal := true, uploadCalls := [] }
  else { trace := tr ++ [.fatalEv], fatal := true, uploadCalls := [] }

/-! ## Derived notions used by the theorems -/

/-- The current entry of the tar writer as a list (empty when none). -/
def pendList (t : TarState) : List TarEntry :=
  match t.pending with
  | none => []
  | some e => [e]

/-- All entries whose headers have been written: the flushed ones followed by
the current one. -/
def tarSoFar (t : TarState) : List TarEntry :=
  t.entries ++ pendList t

/-- The current entry, if any, is fully written, so that the next flush
succeeds. -/
def pendingOk (t : TarState) : Bool :=
  match t.pending with
  | none => true
  | some e => entryComplete e

/-- The header names of all entries started so far. -/
def tarNames (t : TarState) : List (List String) :=
  (tarSoFar t).map fun e => e.header.name

/-- The predetermined outcome of `io.Copy(tarWriter, file)` for a file whose
header (of size `meta.size`) was just written: the error it returns, if any.
Mirrors `copyToTar` at an empty current body. -/
def copyFailureOf (meta : FileMeta) : Option WalkErr :=
  let produced :=
    match meta.readErrAt with
    | some n => meta.content.take n
    | none => meta.content
  let attempted := min produced.length meta.size
  let sinkCap :=
    match meta.bodyWriteErrAt with
    | some k => k
    | none => attempted
  if sinkCap < attempted then some .copyWriteErr
  else if meta.size < produced.length then some .tooLongErr
  else if meta.readErrAt.isSome then some .copyReadErr
  else none

/-- The first error the walk callback hits on a file whose relative path
computation succeeded, if any: open failure, then header write failure, then
the copy outcome. -/
def failureOf (meta : FileMeta) : Option WalkErr :=
  if !meta.openOk then some .fileOpenErr
  else if !meta.hdrWriteOk then some .headerWriteErr
  else copyFailureOf meta

/-- A well-formed file-system entry name, as every real directory entry is:
non-empty, not the parent-directory segment, and free of the path
separator (a name containing '/' cannot occur in a directory listing). -/
def goodName (s : String) : Bool :=
  decide (s.data ≠ []) && decide (s ≠ "..") && decide ('/' ∉ s.data)

mutual
/-- Every name in the tree is a well-formed entry name. -/
def validTree : FSNode → Bool
  | .file name _ => goodName name
  | .dir name cs => goodName name && validChildren cs

/-- Every name in a list of sibling trees is well formed. -/
def validChildren : List FSNode → Bool
  | [] => true
  | t :: ts => validTree t && validChildren ts
end

/-- The string `filepath.Rel` returns for a component list, as its character
list: the components joined with the forward-slash separator. -/
def renderPath : List String → List Char
  | [] => []
  | [c] => c.data
  | c :: cs => c.data ++ '/' :: renderPath cs

/-- Every occurrence of `a` in `tr` is strictly before every occurrence of
`b`. -/
def allBefore (tr : List FinalEvent) (a b : FinalEvent) : Prop :=
  ∀ i j : Fin tr.length, tr.get i = a → tr.get j = b → i.val < j.val

instance (tr : List FinalEvent) (a b : FinalEvent) : Decidable (allBefore tr a b) := by
  unfold allBefore
  infer_instance

/-- Every occurrence of stage `b` in a pipeline trace is preceded by an
occurrence of stage `a`. -/
def stageBefore (tr : List PipeEvent) (a b : PipeEvent) : Prop :=
  ∀ j : Fin tr.length, tr.get j = b →
    ∃ i : Fin tr.length, i.val < j.val ∧ tr.get i = a

instance (tr : List PipeEvent) (a b : PipeEvent) : Decidable (stageBefore tr a b) := by
  unfold stageBefore
  infer_instance

/-! ## Sample worlds used by the witnesses -/

/-- A readable regular file with three bytes of content. -/
def mClean : FileMeta :=
  { kind := .regular, size := 3, mode := 420, modTime := 7, content := [1, 2, 3],
    relOk := true, openOk := true, readErrAt := none, hdrWriteOk := true,
    bodyWriteErrAt := none }

/-- A readable regular file with one byte of content. -/
def mCleanB : FileMeta :=
  { mClean with size := 1, content := [9] }

/-- A file whose `os.Open` fails (for example, permissions were revoked
after the walk started). -/
def mOpenFail : FileMeta :=
  { mClean with openOk := false }

/-- A file whose read fails after one byte. -/
def mReadFail : FileMeta :=
  { mClean with readErrAt := some 1 }

/-- A file whose `filepath.Rel` computation fails. -/
def mRelFail : FileMeta :=
  { mClean with relOk := false }

/-- A symbolic link: lstat reports the link's own size, reading it yields the
target's content. -/
def mSymlink : FileMeta :=
  { kind := .symlink, size := 2, mode := 511, modTime := 9, content := [4, 5],
    relOk := true, openOk := true, readErrAt := none, hdrWriteOk := true,
    bodyWriteErrAt := none }

/-- A healthy tree: a file, an empty directory, and a file in a
subdirectory. -/
def sampleTree : List FSNode :=
  [.file "a.txt" mClean, .dir "empty" [], .dir "sub" [.file "b.txt" mCleanB]]

/-- A tree whose middle file fails to open during the walk. -/
def abortTree : List FSNode :=
  [.file "a" mClean, .file "x" mOpenFail, .file "z" mClean]

/-- A tree whose middle file fails its relative-path computation. -/
def relTree : List FSNode :=
  [.file "a" mClean, .file "s" mRelFail, .file "z" mCleanB]

/-- A tree whose only file fails mid-read. -/
def readTree : List FSNode :=
  [.file "r" mReadFail]

/-- A tree mixing a symbolic link and a regular file. -/
def mixedTree : List FSNode :=
  [.file "a" mClean, .file "ln" mSymlink]

/-- A sample decoded credential response. -/
def sampleCreds : credsResponse :=
  { bucketName := "bucket-1", secretKey := "sk", accessKey := "ak",
    sessionToken := "st", region := "us-east-1", key := "obj/key.tar.gz" }

/-- A transport that always answers 200 with a fixed body. -/
def sendOk : HttpRequest → HttpResult :=
  fun _ => .response { statusCode := 200, statusText := "200 OK", body := "body-ok" }

/-- A transport that always answers 500. -/
def send500 : HttpRequest → HttpResult :=
  fun _ => .response { statusCode := 500, statusText := "500 Internal Server Error", body := "" }

/-- A decoder that accepts exactly the body `sendOk` produces. -/
def decodeEx : String → Except String credsResponse :=
  fun s => if s = "body-ok" then .ok sampleCreds else .error "bad json"

/-- Pipeline parameters for a run in which every stage succeeds. -/
def pEx : MainParams :=
  { createOk := true, rootOpenOk := true, root := sampleTree, archiveWritten := 77,
    hydraURL := "https://hydra.example/creds", hydraUser := "user", hydraPass := "pass",
    urlOk := true, rewindOk := true, sessionOk := true, transferOk := true }

/-! ## Walk lemmas -/

theorem fileVisits_nil : fileVisits [] = [] := rfl

theorem fileVisits_cons_dir (rel : List String) (vs : List Visit) :
    fileVisits (Visit.dirV rel :: vs) = fileVisits vs := rfl

theorem fileVisits_cons_file (rel : List String) (m : FileMeta) (vs : List Visit) :
    fileVisits (Visit.fileV rel m :: vs) = (rel, m) :: fileVisits vs := rfl

theorem tarFlush_of_pendingOk (t : TarState) (h : pendingOk t = true) :
    tarFlush t = ({ entries := tarSoFar t, pending := none, trailer := t.trailer }, none) := by
  rcases t with ⟨es, p, tr⟩
  cases p with
  | none => simp [tarFlush, tarSoFar, pendList]
  | some e =>
    simp only [pendingOk] at h
    simp [tarFlush, tarSoFar, pendList, h]

theorem walkFileStep_clean (rel : List String) (m : FileMeta) (w : WState)
    (hm : cleanFile m = true) (hp : pendingOk w.tar = true)
    (hc : w.sinkCorrupt = false) :
    walkFileStep (some rel) m w =
      ({ tar := { entries := tarSoFar w.tar, pending := some (entryOf (rel, m)),
                  trailer := w.tar.trailer },
         sinkCorrupt := false, gzipFooter := w.gzipFooter }, none) := by
  simp only [cleanFile, Bool.and_eq_true, beq_iff_eq] at hm
  obtain ⟨⟨⟨⟨⟨hrel, hopen⟩, hread⟩, hhdr⟩, hbody⟩, hlen⟩ := hm
  simp only [walkFileStep, hopen, if_true]
  simp only [tarWriteHeader, hc, Bool.false_eq_true, if_false,
    tarFlush_of_pendingOk w.tar hp, hhdr, if_true]
  simp only [copyToTar, hread, hbody, Option.isSome_none]
  simp [entryOf, hlen, List.take_length]

theorem runWalk_ok (vs : List Visit) (w : WState)
    (hv : ∀ p ∈ fileVisits vs, p.2.relOk = true → cleanFile p.2 = true)
    (hp : pendingOk w.tar = true) (hc : w.sinkCorrupt = false) :
    (runWalk vs w).2 = none ∧
    tarSoFar (runWalk vs w).1.tar
      = tarSoFar w.tar ++ ((fileVisits vs).filter (fun p => p.2.relOk)).map entryOf ∧
    pendingOk (runWalk vs w).1.tar = true ∧
    (runWalk vs w).1.sinkCorrupt = false ∧
    (runWalk vs w).1.tar.trailer = w.tar.trailer ∧
    (runWalk vs w).1.gzipFooter = w.gzipFooter := by
  induction vs generalizing w with
  | nil => simp [runWalk, fileVisits_nil, hp, hc]
  | cons v rest ih =>
    cases v with
    | dirV rel =>
      have hv' : ∀ p ∈ fileVisits rest, p.2.relOk = true → cleanFile p.2 = true := by
        intro p hpmem
        exact hv p (by simp [fileVisits_cons_dir, hpmem])
      simpa [runWalk, walkVisit, fileVisits_cons_dir] using ih w hv' hp hc
    | fileV rel m =>
      have hv' : ∀ p ∈ fileVisits rest, p.2.relOk = true → cleanFile p.2 = true := by
        intro p hpmem
        exact hv p (by simp [fileVisits_cons_file, hpmem])
      by_cases hrel : m.relOk = true
      · have hm : cleanFile m = true := hv (rel, m) (by simp [fileVisits_cons_file]) hrel
        have hstep := walkFileStep_clean rel m w hm hp hc
        have hcomplete : entryComplete (entryOf (rel, m)) = true := by
          simp only [cleanFile, Bool.and_eq_true, beq_iff_eq] at hm
          simp [entryComplete, entryOf, hm.2]
        set w2 : WState :=
          { tar := { entries := tarSoFar w.tar, pending := some (entryOf (rel, m)),
                     trailer := w.tar.trailer },
            sinkCorrupt := false, gzipFooter := w.gzipFooter } with hw2
        have hrun : runWalk (Visit.fileV rel m :: rest) w = runWalk rest w2 := by
          simp [runWalk, walkVisit, hrel, hstep]
        have hp2 : pendingOk w2.tar = true := by
          simp [hw2, pendingOk, hcomplete]
        have hres := ih w2 hv' hp2 rfl
        rw [hrun]
        have hsoFar : tarSoFar w2.tar = tarSoFar w.tar ++ [entryOf (rel, m)] := by
          simp [hw2, tarSoFar, pendList]
        refine ⟨hres.1, ?_, hres.2.2.1, hres.2.2.2.1, ?_, ?_⟩
        · rw [hres.2.1, hsoFar]
          simp [fileVisits_cons_file, hrel, List.filter_cons]
        · rw [hres.2.2.2.2.1]
        · rw [hres.2.2.2.2.2]
      · have hstep : walkFileStep (if m.relOk then some rel else none) m w = (w, none) := by
          simp only [Bool.not_eq_true] at hrel
          simp [hrel, walkFileStep]
        have hrun : runWalk (Visit.fileV rel m :: rest) w = runWalk rest w := by
          simp [runWalk, walkVisit, hstep]
        rw [hrun]
        have hres := ih w hv' hp hc
        refine ⟨hres.1, ?_, hres.2.2.1, hres.2.2.2.1, hres.2.2.2.2.1, hres.2.2.2.2.2⟩
        rw [hres.2.1]
        simp only [Bool.not_eq_true] at hrel
        simp [fileVisits_cons_file, List.filter_cons, hrel]

theorem dirToTar_ok (root : List FSNode)
    (hv : ∀ p ∈ walkFiles root, p.2.relOk = true → cleanFile p.2 = true) :
    (dirToTar true root).err = none ∧
    (dirToTar true root).ws.tar.entries
      = ((walkFiles root).filter (fun p => p.2.relOk)).map entryOf ∧
    archiveValid (dirToTar true root) = true ∧
    parsedEntries (dirToTar true root)
      = some (((walkFiles root).filter (fun p => p.2.relOk)).map entryOf) := by
  have hv' : ∀ p ∈ fileVisits (Visit.dirV [] :: visitsOfChildren [] root),
      p.2.relOk = true → cleanFile p.2 = true := by
    intro p hpmem
    exact hv p (by simpa [fileVisits_cons_dir, walkFiles] using hpmem)
  have hinit : pendingOk initWState.tar = true := rfl
  have hres := runWalk_ok (Visit.dirV [] :: visitsOfChildren [] root) initWState hv' hinit rfl
  rcases hrw : runWalk (Visit.dirV [] :: visitsOfChildren [] root) initWState with ⟨w1, e⟩
  rw [hrw] at hres
  obtain ⟨he, hsoFar, hpend, hcor, htrail, hfoot⟩ := hres
  simp only at he hsoFar hpend hcor htrail hfoot
  have hfv : fileVisits (Visit.dirV [] :: visitsOfChildren [] root) = walkFiles root := by
    simp [fileVisits_cons_dir, walkFiles]
  rw [hfv] at hsoFar
  have hsoFar' : tarSoFar w1.tar
      = ((walkFiles root).filter (fun p => p.2.relOk)).map entryOf := by
    rw [hsoFar]
    simp [initWState, tarSoFar, pendList]
  have hclose : tarClose w1.tar false
      = { entries := tarSoFar w1.tar, pending := none, trailer := true } := by
    simp [tarClose, tarFlush_of_pendingOk w1.tar hpend]
  simp only [dirToTar, if_true, hrw, gzipClose, hcor, Bool.false_eq_true, if_false,
    archiveValid, parsedEntries]
  rw [hclose]
  simp [he, hsoFar']

/-! ## Abort lemmas -/

theorem runWalk_append (vs1 vs2 : List Visit) (w : WState) :
    runWalk (vs1 ++ vs2) w =
      match runWalk vs1 w with
      | (w2, none) => runWalk vs2 w2
      | (w2, some e) => (w2, some e) := by
  induction vs1 generalizing w with
  | nil => simp [runWalk]
  | cons v rest ih =>
    simp only [List.cons_append, runWalk]
    rcases walkVisit v w with ⟨w2, e⟩
    cases e with
    | none => simp [ih w2]
    | some e0 => simp

theorem walkFileStep_fail (rel : List String) (m : FileMeta) (w : WState) (E : WalkErr)
    (hf : failureOf m = some E) (hp : pendingOk w.tar = true)
    (hc : w.sinkCorrupt = false) :
    (walkFileStep (some rel) m w).2 = some E ∧
    tarNames (walkFileStep (some rel) m w).1.tar <+: tarNames w.tar ++ [rel] := by
  by_cases hopen : m.openOk = true
  · by_cases hhdr : m.hdrWriteOk = true
    · -- the failure is in the copy
      have hcf : copyFailureOf m = some E := by
        simpa [failureOf, hopen, hhdr] using hf
      have hflush := tarFlush_of_pendingOk w.tar hp
      simp only [walkFileStep, hopen, if_true, tarWriteHeader, hc, Bool.false_eq_true,
        if_false, hflush, hhdr, if_true]
      simp only [copyToTar, copyFailureOf] at hcf ⊢
      simp only [List.length_nil, Nat.sub_zero, List.nil_append] at hcf ⊢
      rcases hread : m.readErrAt with _ | n <;> rcases hbody : m.bodyWriteErrAt with _ | k <;>
        simp only [hread, hbody] at hcf ⊢ <;>
        split_ifs at hcf ⊢ with h1 h2 h3 <;>
        simp_all [tarNames, tarSoFar, pendList]
    · -- header write fails: the previous entry is flushed, the sink is corrupt
      have hE : E = .headerWriteErr := by
        simp only [Bool.not_eq_true] at hhdr
        simpa [failureOf, hopen, hhdr] using hf.symm
      have hflush := tarFlush_of_pendingOk w.tar hp
      simp only [Bool.not_eq_true] at hhdr
      simp only [walkFileStep, hopen, if_true, tarWriteHeader, hc, Bool.false_eq_true,
        if_false, hflush, hhdr]
      refine ⟨by simp [hE], ?_⟩
      refine ⟨[rel], ?_⟩
      simp [tarNames, tarSoFar, pendList]
  · have hE : E = .fileOpenErr := by
      simp only [Bool.not_eq_true] at hopen
      simpa [failureOf, hopen] using hf.symm
    simp only [Bool.not_eq_true] at hopen
    simp only [walkFileStep, hopen, Bool.false_eq_true, if_false]
    exact ⟨by simp [hE], ⟨[rel], rfl⟩⟩

theorem tarNames_entryOf (l : List (List String × FileMeta)) :
    (l.map entryOf).map (fun e => e.header.name) = l.map (fun p => p.1) := by
  simp [List.map_map, entryOf, Function.comp]

theorem runWalk_abort (vs1 vs2 : List Visit) (rel : List String) (m : FileMeta)
    (w : WState) (E : WalkErr)
    (h1 : ∀ p ∈ fileVisits vs1, p.2.relOk = true → cleanFile p.2 = true)
    (hrel : m.relOk = true) (hf : failureOf m = some E)
    (hp : pendingOk w.tar = true) (hc : w.sinkCorrupt = false) :
    (runWalk (vs1 ++ Visit.fileV rel m :: vs2) w).2 = some E ∧
    tarNames (runWalk (vs1 ++ Visit.fileV rel m :: vs2) w).1.tar
      <+: (tarNames w.tar
            ++ ((fileVisits vs1).filter (fun p => p.2.relOk)).map (fun p => p.1)) ++ [rel] := by
  have hok := runWalk_ok vs1 w h1 hp hc
  rcases hrw1 : runWalk vs1 w with ⟨w1, e1⟩
  rw [hrw1] at hok
  obtain ⟨he1, hsoFar, hpend, hcor, -, -⟩ := hok
  simp only at he1 hsoFar hpend hcor
  subst he1
  have hfail := walkFileStep_fail rel m w1 E hf hpend hcor
  rcases hst : walkFileStep (some rel) m w1 with ⟨w2, e2⟩
  rw [hst] at hfail
  simp only at hfail
  have hrun : runWalk (vs1 ++ Visit.fileV rel m :: vs2) w = (w2, e2) := by
    rw [runWalk_append, hrw1]
    simp only [runWalk, walkVisit, hrel, if_true, hst]
    cases e2 with
    | none => exact absurd hfail.1 (by simp)
    | some e0 => rfl
  rw [hrun]
  have hnames1 : tarNames w1.tar
      = tarNames w.tar ++ ((fileVisits vs1).filter (fun p => p.2.relOk)).map (fun p => p.1) := by
    simp only [tarNames, hsoFar, List.map_append]
    rw [tarNames_entryOf]
  refine ⟨hfail.1, ?_⟩
  have := hfail.2
  rw [hnames1] at this
  exact this

theorem tarClose_names (t : TarState) (b : Bool) :
    (tarClose t b).entries.map (fun e => e.header.name) <+: tarNames t := by
  rcases t with ⟨es, p, tr⟩
  cases b with
  | true =>
    simp only [tarClose, if_true]
    exact ⟨(pendList ⟨es, p, tr⟩).map fun e => e.header.name, by simp [tarNames, tarSoFar]⟩
  | false =>
    simp only [tarClose, Bool.false_eq_true, if_false, tarFlush]
    cases p with
    | none =>
      exact ⟨[], by simp [tarNames, tarSoFar, pendList]⟩
    | some e =>
      by_cases hce : entryComplete e = true
      · simp only [hce, if_true]
        exact ⟨[], by simp [tarNames, tarSoFar, pendList]⟩
      · simp only [Bool.not_eq_true] at hce
        simp only [hce, Bool.false_eq_true, if_false]
        exact ⟨[e.header.name], by simp [tarNames, tarSoFar, pendList]⟩

theorem gzipClose_tar (w : WState) : (gzipClose w).tar = w.tar := by
  unfold gzipClose
  split <;> rfl

theorem dirToTar_abort (root : List FSNode) (vs1 : List Visit) (rel : List String)
    (m : FileMeta) (vs2 : List Visit) (E : WalkErr)
    (hsplit : visitsOfChildren [] root = vs1 ++ Visit.fileV rel m :: vs2)
    (h1 : ∀ p ∈ fileVisits vs1, p.2.relOk = true → cleanFile p.2 = true)
    (hrel : m.relOk = true) (hf : failureOf m = some E) :
    (dirToTar true root).err = some E ∧
    (dirToTar true root).ws.tar.entries.map (fun e => e.header.name)
      <+: ((fileVisits vs1).filter (fun p => p.2.relOk)).map (fun p => p.1) ++ [rel] := by
  have hlist : Visit.dirV [] :: visitsOfChildren [] root
      = (Visit.dirV [] :: vs1) ++ Visit.fileV rel m :: vs2 := by
    simp [hsplit]
  have h1' : ∀ p ∈ fileVisits (Visit.dirV [] :: vs1),
      p.2.relOk = true → cleanFile p.2 = true := by
    intro p hpmem
    exact h1 p (by simpa [fileVisits_cons_dir] using hpmem)
  have habort := runWalk_abort (Visit.dirV [] :: vs1) vs2 rel m initWState E h1' hrel hf rfl rfl
  rcases hrw : runWalk ((Visit.dirV [] :: vs1) ++ Visit.fileV rel m :: vs2) initWState with ⟨w1, e1⟩
  rw [hrw] at habort
  simp only at habort
  obtain ⟨he1, hpref⟩ := habort
  subst he1
  have hinitNames : tarNames initWState.tar = [] := rfl
  rw [fileVisits_cons_dir, hinitNames, List.nil_append] at hpref
  have hrw2 : runWalk (Visit.dirV [] :: visitsOfChildren [] root) initWState = (w1, some E) := by
    rw [hlist, hrw]
  simp only [dirToTar, if_true, hrw2]
  refine ⟨trivial, ?_⟩
  rw [gzipClose_tar]
  have hcn := tarClose_names w1.tar w1.sinkCorrupt
  exact List.IsPrefix.trans hcn hpref

/-! ## Where entry names come from -/

theorem tarFlush_names (t : TarState) : tarNames (tarFlush t).1 = tarNames t := by
  rcases t with ⟨es, p, tr⟩
  cases p with
  | none => rfl
  | some e =>
    by_cases hce : entryComplete e = true
    · simp [tarFlush, hce, tarNames, tarSoFar, pendList]
    · simp only [Bool.not_eq_true] at hce
      simp [tarFlush, hce]

theorem copyToTar_names (m : FileMeta) (w : WState) :
    tarNames (copyToTar m w).1.tar = tarNames w.tar := by
  unfold copyToTar
  rcases hpend : w.tar.pending with _ | e
  · rfl
  · simp only
    split_ifs <;> simp [tarNames, tarSoFar, pendList, hpend]

theorem walkFileStep_names (relRes : Option (List String)) (m : FileMeta) (w : WState) :
    tarNames (walkFileStep relRes m w).1.tar = tarNames w.tar ∨
    ∃ rel, relRes = some rel ∧
      tarNames (walkFileStep relRes m w).1.tar = tarNames w.tar ++ [rel] := by
  cases relRes with
  | none => exact Or.inl rfl
  | some rel =>
    by_cases hopen : m.openOk = true
    · simp only [walkFileStep, hopen, if_true]
      rcases hh : tarWriteHeader
          { name := rel, size := m.size, mode := m.mode, modTime := m.modTime }
          m.hdrWriteOk w with ⟨w2, e2⟩
      have hnames2 : tarNames w2.tar = tarNames w.tar ∨
          tarNames w2.tar = tarNames w.tar ++ [rel] := by
        unfold tarWriteHeader at hh
        by_cases hcor : w.sinkCorrupt = true
        · simp only [hcor, if_true] at hh
          injection hh with hw2 he2
          exact Or.inl (by rw [← hw2])
        · simp only [Bool.not_eq_true] at hcor
          simp only [hcor, Bool.false_eq_true, if_false] at hh
          rcases hfl : tarFlush w.tar with ⟨t2, efl⟩
          have hflnames : tarNames t2 = tarNames w.tar := by
            have := tarFlush_names w.tar
            rw [hfl] at this
            exact this
          have ht2pend : efl = none → t2.pending = none := by
            intro hefl
            subst hefl
            unfold tarFlush at hfl
            rcases hp0 : w.tar.pending with _ | e0
            · simp only [hp0] at hfl
              injection hfl with hfl1 hfl2
              rw [← hfl1]
              exact hp0
            · simp only [hp0] at hfl
              by_cases hce : entryComplete e0 = true
              · simp only [hce, if_true] at hfl
                injection hfl with hfl1 hfl2
                rw [← hfl1]
              · simp only [hce, Bool.false_eq_true, if_false] at hfl
                injection hfl with hfl1 hfl2
                exact absurd hfl2 (by simp)
          cases efl with
          | some e0 =>
            simp only [hfl] at hh
            injection hh with hw2 he2
            refine Or.inl ?_
            rw [← hw2]
            exact hflnames
          | none =>
            simp only [hfl] at hh
            by_cases hsink : m.hdrWriteOk = true
            · simp only [hsink, if_true] at hh
              injection hh with hw2 he2
              refine Or.inr ?_
              rw [← hw2]
              simp only [tarNames, tarSoFar, pendList, List.map_append, List.append_nil,
                ht2pend rfl] at hflnames ⊢
              simp [hflnames]
            · simp only [Bool.not_eq_true] at hsink
              simp only [hsink, Bool.false_eq_true, if_false] at hh
              injection hh with hw2 he2
              refine Or.inl ?_
              rw [← hw2]
              exact hflnames
      cases e2 with
      | some e0 =>
        simp only
        rcases hnames2 with h | h
        · exact Or.inl h
        · exact Or.inr ⟨rel, rfl, h⟩
      | none =>
        simp only
        have hcopy := copyToTar_names m w2
        rcases hnames2 with h | h
        · exact Or.inl (by rw [hcopy]; exact h)
        · exact Or.inr ⟨rel, rfl, by rw [hcopy]; exact h⟩
    · simp only [Bool.not_eq_true] at hopen
      simp only [walkFileStep, hopen, Bool.false_eq_true, if_false]
      exact Or.inl trivial

theorem runWalk_names (vs : List Visit) (w : WState) :
    ∃ l, l.Sublist ((fileVisits vs).map (fun p => p.1)) ∧
      tarNames (runWalk vs w).1.tar = tarNames w.tar ++ l := by
  induction vs generalizing w with
  | nil => exact ⟨[], by simp [runWalk, fileVisits_nil]⟩
  | cons v rest ih =>
    have hstep : tarNames (walkVisit v w).1.tar = tarNames w.tar ∨
        ∃ rel, tarNames (walkVisit v w).1.tar = tarNames w.tar ++ [rel] ∧
          (fileVisits (v :: rest)).map (fun p => p.1)
            = rel :: (fileVisits rest).map (fun p => p.1) := by
      cases v with
      | dirV rel => exact Or.inl rfl
      | fileV rel m =>
        rcases walkFileStep_names (if m.relOk then some rel else none) m w with h | ⟨rel2, hrel2, h⟩
        · exact Or.inl h
        · have : rel2 = rel := by
            by_cases hro : m.relOk = true
            · simp only [hro, if_true, Option.some.injEq] at hrel2
              exact hrel2.symm
            · simp only [Bool.not_eq_true] at hro
              simp [hro] at hrel2
          subst this
          exact Or.inr ⟨rel2, h, by simp [fileVisits_cons_file]⟩
    rcases hw : walkVisit v w with ⟨w2, e2⟩
    rw [hw] at hstep
    simp only at hstep
    have hfvsub : ((fileVisits rest).map (fun p => p.1)).Sublist
        ((fileVisits (v :: rest)).map (fun p => p.1)) := by
      cases v with
      | dirV rel => simp [fileVisits_cons_dir]
      | fileV rel m => simp [fileVisits_cons_file]
    cases e2 with
    | some e0 =>
      have hrun : runWalk (v :: rest) w = (w2, some e0) := by
        simp [runWalk, hw]
      rw [hrun]
      rcases hstep with h | ⟨rel, h, hfv⟩
      · exact ⟨[], List.nil_sublist _, by simpa using h⟩
      · exact ⟨[rel], by rw [hfv]; exact (List.nil_sublist _).cons₂ rel, by simpa using h⟩
    | none =>
      have hrun : runWalk (v :: rest) w = runWalk rest w2 := by
        simp [runWalk, hw]
      rw [hrun]
      obtain ⟨l, hl, hnl⟩ := ih w2
      rcases hstep with h | ⟨rel, h, hfv⟩
      · exact ⟨l, hl.trans hfvsub, by rw [hnl, h]⟩
      · refine ⟨rel :: l, ?_, ?_⟩
        · rw [hfv]
          exact hl.cons₂ rel
        · rw [hnl, h]
          simp

theorem dirToTar_entry_names (ok : Bool) (root : List FSNode) :
    ∀ e ∈ (dirToTar ok root).ws.tar.entries,
      e.header.name ∈ (walkFiles root).map (fun p => p.1) := by
  cases ok with
  | false =>
    intro e he
    simp [dirToTar, initWState] at he
  | true =>
    obtain ⟨l, hl, hnl⟩ := runWalk_names (Visit.dirV [] :: visitsOfChildren [] root) initWState
    rcases hrw : runWalk (Visit.dirV [] :: visitsOfChildren [] root) initWState with ⟨w1, e1⟩
    rw [hrw] at hnl
    simp only at hnl
    intro e he
    simp only [dirToTar, if_true, hrw] at he
    rw [gzipClose_tar] at he
    have hpref := tarClose_names w1.tar w1.sinkCorrupt
    have hename : e.header.name ∈ (tarClose w1.tar w1.sinkCorrupt).entries.map
        (fun e2 => e2.header.name) := List.mem_map_of_mem (fun e2 => e2.header.name) he
    have h1 : e.header.name ∈ tarNames w1.tar := hpref.subset hename
    rw [hnl] at h1
    have hinit : tarNames initWState.tar = [] := rfl
    rw [hinit, List.nil_append] at h1
    have h2 : e.header.name ∈ (fileVisits (Visit.dirV [] :: visitsOfChildren [] root)).map
        (fun p => p.1) := hl.subset h1
    rw [fileVisits_cons_dir] at h2
    exact h2

/-! ## Well-formed file names and rendered paths -/

theorem goodName_spec (s : String) (h : goodName s = true) :
    s.data ≠ [] ∧ s ≠ ".." ∧ '/' ∉ s.data := by
  simp only [goodName, Bool.and_eq_true, decide_eq_true_eq] at h
  exact ⟨h.1.1, h.1.2, h.2⟩

mutual
theorem visitsOf_good (rel : List String) (t : FSNode) (h : validTree t = true) :
    ∀ p ∈ fileVisits (visitsOf rel t),
      ∃ s, p.1 = rel ++ s ∧ s ≠ [] ∧ ∀ c ∈ s, goodName c = true := by
  cases t with
  | file name m =>
    intro p hp
    simp only [visitsOf, fileVisits, List.filterMap] at hp
    simp only [List.mem_singleton] at hp
    subst hp
    exact ⟨[name], rfl, by simp, by simpa [validTree] using h⟩
  | dir name cs =>
    intro p hp
    simp only [validTree, Bool.and_eq_true] at h
    simp only [visitsOf, fileVisits_cons_dir] at hp
    obtain ⟨s, hs, hne, hgood⟩ := visitsOfChildren_good (rel ++ [name]) cs h.2 p hp
    exact ⟨name :: s, by simp [hs], by simp, by
      intro c hc
      rcases List.mem_cons.mp hc with hc | hc
      · subst hc; exact h.1
      · exact hgood c hc⟩

theorem visitsOfChildren_good (rel : List String) (ts : List FSNode)
    (h : validChildren ts = true) :
    ∀ p ∈ fileVisits (visitsOfChildren rel ts),
      ∃ s, p.1 = rel ++ s ∧ s ≠ [] ∧ ∀ c ∈ s, goodName c = true := by
  cases ts with
  | nil =>
    intro p hp
    simp [visitsOfChildren, fileVisits] at hp
  | cons t ts2 =>
    intro p hp
    simp only [validChildren, Bool.and_eq_true] at h
    simp only [visitsOfChildren, fileVisits, List.filterMap_append] at hp
    rcases List.mem_append.mp hp with hp | hp
    · exact visitsOf_good rel t h.1 p hp
    · exact visitsOfChildren_good rel ts2 h.2 p hp
end

theorem renderPath_head (c : String) (cs : List String) (hc : c.data ≠ []) :
    (renderPath (c :: cs)).head? = c.data.head? := by
  cases cs with
  | nil => rfl
  | cons c2 cs2 =>
    rcases hd : c.data with _ | ⟨x, xs⟩
    · exact absurd hd hc
    · simp [renderPath, hd]

/-! ## Ordering of finalization and pipeline events -/

theorem closeTrace_ordered (m f r : Bool) :
    FinalEvent.tarCloseCall ∈ closeTrace m f r ∧
    FinalEvent.gzipCloseCall ∈ closeTrace m f r ∧
    (closeTrace m f r).getLast? = some (FinalEvent.retEv r) ∧
    allBefore (closeTrace m f r) .tarCloseCall .gzipCloseCall ∧
    allBefore (closeTrace m f r) .tarMarker .gzipCloseCall ∧
    allBefore (closeTrace m f r) .gzipCloseCall (.retEv r) ∧
    (FinalEvent.tarMarker ∈ closeTrace m f r ↔ m = true) := by
  cases m <;> cases f <;> cases r <;> decide

theorem dirToTar_trace_eq (root : List FSNode) :
    (dirToTar true root).trace
      = closeTrace (dirToTar true root).ws.tar.trailer
          (dirToTar true root).ws.gzipFooter (dirToTar true root).err.isNone := by
  rcases hrw : runWalk (Visit.dirV [] :: visitsOfChildren [] root) initWState with ⟨w1, e1⟩
  simp only [dirToTar, if_true, hrw, gzipClose_tar]

theorem mainRun_trace_cases (p : MainParams) (send : HttpRequest → HttpResult)
    (decode : String → Except String credsResponse) :
    (mainRun p send decode).trace = [PipeEvent.createEv, .fatalEv] ∨
    (mainRun p send decode).trace = [PipeEvent.createEv, .archiveEv, .fatalEv] ∨
    (mainRun p send decode).trace = [PipeEvent.createEv, .archiveEv, .credsEv, .fatalEv] ∨
    (mainRun p send decode).trace
      = [PipeEvent.createEv, .archiveEv, .credsEv, .rewindEv, .fatalEv] ∨
    (mainRun p send decode).trace
      = [PipeEvent.createEv, .archiveEv, .credsEv, .rewindEv, .uploadEv] ∨
    (mainRun p send decode).trace
      = [PipeEvent.createEv, .archiveEv, .credsEv, .rewindEv, .uploadEv, .fatalEv] := by
  unfold mainRun
  cases hcr : p.createOk with
  | false => simp [hcr]
  | true =>
    cases har : (dirToTar p.rootOpenOk p.root).err with
    | some e => simp [hcr, har]
    | none =>
      cases hcd : (requestCreds p.hydraURL p.hydraUser p.hydraPass p.urlOk send decode).result with
      | error e => simp [hcr, har, hcd]
      | ok creds =>
        cases hrew : p.rewindOk with
        | false => simp [hcr, har, hcd, hrew]
        | true =>
          rcases hup : creds.uploadFile p.sessionOk p.transferOk { pos := 0 } with ⟨calls, okb⟩
          cases okb <;> simp [hcr, har, hcd, hrew, hup]

/-! ## Claim theorems -/

theorem cleanFile_relOk (m : FileMeta) (h : cleanFile m = true) : m.relOk = true := by
  simp only [cleanFile, Bool.and_eq_true] at h
  exact h.1.1.1.1.1

theorem filter_relOk_of_clean (l : List (List String × FileMeta))
    (h : ∀ p ∈ l, cleanFile p.2 = true) :
    l.filter (fun p => p.2.relOk) = l := by
  induction l with
  | nil => rfl
  | cons p rest ih =>
    have hp := cleanFile_relOk p.2 (h p (by simp))
    rw [List.filter_cons]
    simp only [hp, if_true]
    rw [ih fun q hq => h q (by simp [hq])]

/-- Claim C1: on a directory tree containing only regular files and
subdirectories, all readable and unchanged during the walk and written to a
working sink, `dirToTar` succeeds and decompressing and parsing the sink
yields exactly one entry per regular file, in walk order, reproducing the
file's root-relative path, its bytes, and its size; directories (including
empty ones) produce no entries and cause no failure. -/
theorem dirToTar_roundtrip (root : List FSNode)
    (hclean : ∀ p ∈ walkFiles root, cleanFile p.2 = true)
    (_hreg : ∀ p ∈ walkFiles root, p.2.kind = FileKind.regular) :
    (dirToTar true root).err = none ∧
    parsedEntries (dirToTar true root) = some ((walkFiles root).map entryOf) ∧
    ∀ p ∈ walkFiles root, (entryOf p).header.size = p.2.content.length := by
  have hv : ∀ p ∈ walkFiles root, p.2.relOk = true → cleanFile p.2 = true :=
    fun p hp _ => hclean p hp
  have h := dirToTar_ok root hv
  have hfilter := filter_relOk_of_clean (walkFiles root) hclean
  refine ⟨h.1, by rw [← hfilter]; exact h.2.2.2, ?_⟩
  intro p hp
  have := hclean p hp
  simp only [cleanFile, Bool.and_eq_true, beq_iff_eq] at this
  simp [entryOf, this.2]

/-- Witness for C1 on a concrete tree with a file, an empty directory, and a
file inside a subdirectory. -/
theorem dirToTar_roundtrip_witness :
    (dirToTar true sampleTree).err = none ∧
    parsedEntries (dirToTar true sampleTree) = some ((walkFiles sampleTree).map entryOf) ∧
    ∀ p ∈ walkFiles sampleTree, (entryOf p).header.size = p.2.content.length :=
  dirToTar_roundtrip sampleTree (by decide) (by decide)

/-- Claim C9: when `filepath.Rel` fails for a visited file, the walk callback
returns nil without touching the writers, so `dirToTar` neither aborts nor
reports an error: the file is silently omitted and every other (healthy)
file is archived. -/
theorem relFail_skipped (root : List FSNode)
    (hv : ∀ p ∈ walkFiles root, p.2.relOk = true → cleanFile p.2 = true) :
    (∀ meta w, walkFileStep none meta w = (w, none)) ∧
    (dirToTar true root).err = none ∧
    parsedEntries (dirToTar true root)
      = some (((walkFiles root).filter (fun p => p.2.relOk)).map entryOf) := by
  have h := dirToTar_ok root hv
  exact ⟨fun meta w => rfl, h.1, h.2.2.2⟩

/-- Witness for C9: a tree whose middle file fails its relative-path
computation is archived without error, that file omitted. -/
theorem relFail_skipped_witness :
    (dirToTar true relTree).err = none ∧
    parsedEntries (dirToTar true relTree)
      = some (((walkFiles relTree).filter (fun p => p.2.relOk)).map entryOf) :=
  ⟨(relFail_skipped relTree (by decide)).2.1, (relFail_skipped relTree (by decide)).2.2⟩

/-- Claim C10: the archiver filters only on the directory bit: every healthy
non-directory walk entry — whatever its `FileKind`, symbolic links and
special files included — is opened and archived with its lstat-reported
size, mode, and modification time; and an open failure on such an entry
aborts the whole walk with an error. -/
theorem nonDir_entries :
    (∀ root : List FSNode, (∀ p ∈ walkFiles root, cleanFile p.2 = true) →
      (dirToTar true root).err = none ∧
      parsedEntries (dirToTar true root) = some ((walkFiles root).map entryOf)) ∧
    (∀ (root : List FSNode) (vs1 : List Visit) (rel : List String) (m : FileMeta)
        (vs2 : List Visit),
      visitsOfChildren [] root = vs1 ++ Visit.fileV rel m :: vs2 →
      (∀ p ∈ fileVisits vs1, cleanFile p.2 = true) →
      m.relOk = true → m.openOk = false →
      (dirToTar true root).err = some WalkErr.fileOpenErr) := by
  constructor
  · intro root hclean
    have hv : ∀ p ∈ walkFiles root, p.2.relOk = true → cleanFile p.2 = true :=
      fun p hp _ => hclean p hp
    have h := dirToTar_ok root hv
    have hfilter := filter_relOk_of_clean (walkFiles root) hclean
    exact ⟨h.1, by rw [← hfilter]; exact h.2.2.2⟩
  · intro root vs1 rel m vs2 hsplit hpre hrel hopen
    have h1 : ∀ p ∈ fileVisits vs1, p.2.relOk = true → cleanFile p.2 = true :=
      fun p hp _ => hpre p hp
    have hfail : failureOf m = some WalkErr.fileOpenErr := by
      simp [failureOf, hopen]
    exact (dirToTar_abort root vs1 rel m vs2 WalkErr.fileOpenErr hsplit h1 hrel hfail).1

/-- Witness for C10: a symbolic link is archived like a regular file, with
its lstat size; a file that fails to open aborts the walk. -/
theorem nonDir_entries_witness :
    parsedEntries (dirToTar true mixedTree) = some ((walkFiles mixedTree).map entryOf) ∧
    (dirToTar true abortTree).err = some WalkErr.fileOpenErr :=
  ⟨(nonDir_entries.1 mixedTree (by decide)).2,
   nonDir_entries.2 abortTree [Visit.fileV ["a"] mClean] ["x"] mOpenFail
     [Visit.fileV ["z"] mClean] (by decide) (by decide) (by decide) (by decide)⟩

/-- Counterexample to claim C2: when the middle file of `abortTree` fails to
open, `dirToTar` returns an error and stops — but the deferred closes still
write the end-of-archive marker and the gzip footer, so the sink holds a
fully valid archive (of the one file archived before the failure), contrary
to the claim that the sink's partial contents are not a valid archive. -/
theorem walkError_aborts_counterexample :
    (dirToTar true abortTree).err = some WalkErr.fileOpenErr ∧
    archiveValid (dirToTar true abortTree) = true ∧
    parsedEntries (dirToTar true abortTree) = some [entryOf (["a"], mClean)] := by
  decide

/-- Claim C2 (amended): any read error on a source file (open or read
failure) and any write error on the sink or the wrapping layers aborts the
walk at that file: `dirToTar` returns that error and no entry for any later
file is written (the sink's entries are a prefix of the clean files before
the failing one, plus at most the failing file's own entry).  The sink's
contents, however, can still parse as a valid archive of the earlier files,
because the deferred closes finalize both layers whenever the failure left
no incomplete entry and no corrupted sink. -/
theorem walkError_aborts (root : List FSNode) (vs1 : List Visit) (rel : List String)
    (m : FileMeta) (vs2 : List Visit) (E : WalkErr)
    (hsplit : visitsOfChildren [] root = vs1 ++ Visit.fileV rel m :: vs2)
    (hpre : ∀ p ∈ fileVisits vs1, cleanFile p.2 = true)
    (hrel : m.relOk = true) (hfail : failureOf m = some E) :
    (dirToTar true root).err = some E ∧
    (dirToTar true root).ws.tar.entries.map (fun e => e.header.name)
      <+: ((fileVisits vs1).map (fun p => p.1)) ++ [rel] := by
  have h1 : ∀ p ∈ fileVisits vs1, p.2.relOk = true → cleanFile p.2 = true :=
    fun p hp _ => hpre p hp
  have h := dirToTar_abort root vs1 rel m vs2 E hsplit h1 hrel hfail
  have hfilter := filter_relOk_of_clean (fileVisits vs1) hpre
  rw [hfilter] at h
  exact h

/-- Witness for the amended C2 at the open-failure tree: the error is
returned and the entry names stop at the failing file. -/
theorem walkError_aborts_witness :
    (dirToTar true abortTree).err = some WalkErr.fileOpenErr ∧
    (dirToTar true abortTree).ws.tar.entries.map (fun e => e.header.name)
      <+: ((fileVisits [Visit.fileV ["a"] mClean]).map (fun p => p.1)) ++ [["x"]] :=
  walkError_aborts abortTree [Visit.fileV ["a"] mClean] ["x"] mOpenFail
    [Visit.fileV ["z"] mClean] WalkErr.fileOpenErr (by decide) (by decide)
    (by decide) (by decide)

/-- Counterexample to claim C3: on the exit path where reading the only file
fails mid-copy, the gzip layer is finalized (footer written) while the tar
writer's end-of-archive marker is never written, so the tar finalization
does not precede the gzip finalization on this exit path — the archive
trailer is simply absent. -/
theorem finalization_order_counterexample :
    FinalEvent.gzipFooterWrite ∈ (dirToTar true readTree).trace ∧
    FinalEvent.tarMarker ∉ (dirToTar true readTree).trace ∧
    (dirToTar true readTree).ws.gzipFooter = true ∧
    (dirToTar true readTree).ws.tar.trailer = false ∧
    (dirToTar true readTree).err = some WalkErr.copyReadErr := by
  decide

/-- Claim C3 (amended): on every exit path the deferred finalizations
respect the order tar-close before gzip-close before return: whenever the
writer layers were created both close calls occur, the return is always the
last event, a tar end-of-archive marker never occurs after the gzip close,
and the gzip close never occurs after the return; the marker itself is
actually written exactly when the final tar state records its trailer, which
an error exit can prevent. -/
theorem finalization_order (ok : Bool) (root : List FSNode) :
    ((dirToTar ok root).writersCreated = true →
      FinalEvent.tarCloseCall ∈ (dirToTar ok root).trace ∧
      FinalEvent.gzipCloseCall ∈ (dirToTar ok root).trace) ∧
    (dirToTar ok root).trace.getLast?
      = some (FinalEvent.retEv (dirToTar ok root).err.isNone) ∧
    allBefore (dirToTar ok root).trace .tarCloseCall .gzipCloseCall ∧
    allBefore (dirToTar ok root).trace .tarMarker .gzipCloseCall ∧
    allBefore (dirToTar ok root).trace .gzipCloseCall
      (.retEv (dirToTar ok root).err.isNone) ∧
    (FinalEvent.tarMarker ∈ (dirToTar ok root).trace
      ↔ (dirToTar ok root).ws.tar.trailer = true) := by
  cases ok with
  | false =>
    have hconst : dirToTar false root = dirToTar false [] := rfl
    rw [hconst]
    decide
  | true =>
    have h := closeTrace_ordered (dirToTar true root).ws.tar.trailer
      (dirToTar true root).ws.gzipFooter (dirToTar true root).err.isNone
    rw [← dirToTar_trace_eq root] at h
    exact ⟨fun _ => ⟨h.1, h.2.1⟩, h.2.2.1, h.2.2.2.1, h.2.2.2.2.1,
      h.2.2.2.2.2.1, h.2.2.2.2.2.2⟩

/-- Witness for the amended C3 on a healthy tree: both closes occur. -/
theorem finalization_order_witness :
    FinalEvent.tarCloseCall ∈ (dirToTar true sampleTree).trace ∧
    FinalEvent.gzipCloseCall ∈ (dirToTar true sampleTree).trace :=
  (finalization_order true sampleTree).1 (by decide)

/-- Claim C4: `requestCreds` fails on a transport error; it fails on every
non-2xx status (indeed on everything but 200), with the HTTP status text in
the error detail; it fails when the body of a 200 response does not decode
as the credentials structure; and it succeeds exactly on a 200 response
whose body decodes, returning the decoded credentials. -/
theorem requestCreds_outcomes (url user pass : String)
    (send : HttpRequest → HttpResult)
    (decode : String → Except String credsResponse) :
    (∀ msg, send (buildCredsRequest url user pass) = .transportErr msg →
      (requestCreds url user pass true send decode).result
        = .error (.transportErr msg)) ∧
    (∀ r, send (buildCredsRequest url user pass) = .response r →
      ¬(200 ≤ r.statusCode ∧ r.statusCode < 300) →
      (requestCreds url user pass true send decode).result
        = .error (.statusErr r.statusText) ∧
      ∃ pre, credsErrMsg (.statusErr r.statusText) = pre ++ r.statusText) ∧
    (∀ r msg, send (buildCredsRequest url user pass) = .response r →
      r.statusCode = 200 → decode r.body = .error msg →
      (requestCreds url user pass true send decode).result = .error (.jsonErr msg)) ∧
    (∀ c, (requestCreds url user pass true send decode).result = .ok c ↔
      ∃ r, send (buildCredsRequest url user pass) = .response r ∧
        r.statusCode = 200 ∧ decode r.body = .ok c) := by
  refine ⟨?_, ?_, ?_, ?_⟩
  · intro msg hs
    simp [requestCreds, hs]
  · intro r hs hnot
    have hne : r.statusCode ≠ 200 := by
      intro h200
      exact hnot ⟨by omega, by omega⟩
    exact ⟨by simp [requestCreds, hs, hne], "Unexpected HTTP response status code: ", rfl⟩
  · intro r msg hs h200 hd
    simp [requestCreds, hs, h200, hd]
  · intro c
    constructor
    · intro hok
      cases hs : send (buildCredsRequest url user pass) with
      | transportErr msg => simp [requestCreds, hs] at hok
      | response r =>
        by_cases h200 : r.statusCode = 200
        · cases hd : decode r.body with
          | error msg => simp [requestCreds, hs, h200, hd] at hok
          | ok c2 =>
            simp [requestCreds, hs, h200, hd] at hok
            exact ⟨r, rfl, h200, by rw [hd, hok]⟩
        · simp [requestCreds, hs, h200] at hok
    · rintro ⟨r, hs, h200, hd⟩
      simp [requestCreds, hs, h200, hd]

/-- Witness for C4: a 500 answer is rejected with the status in the error,
and a 200 answer with a decodable body yields the decoded credentials. -/
theorem requestCreds_outcomes_witness :
    (requestCreds "https://hydra.example/creds" "user" "pass" true send500 decodeEx).result
      = .error (.statusErr "500 Internal Server Error") ∧
    (requestCreds "https://hydra.example/creds" "user" "pass" true sendOk decodeEx).result
      = .ok sampleCreds := by
  constructor
  · exact ((requestCreds_outcomes "https://hydra.example/creds" "user" "pass" send500
      decodeEx).2.1 _ rfl (by decide)).1
  · exact ((requestCreds_outcomes "https://hydra.example/creds" "user" "pass" sendOk
      decodeEx).2.2.2 sampleCreds).mpr ⟨_, rfl, rfl, rfl⟩

/-- Claim C8: when the URL is accepted, the credential client sends exactly
one request: a POST to the configured endpoint with the fixed JSON body,
Content-Type application/json, and basic authentication from the configured
username and password, over a client whose transport skips TLS certificate
verification. -/
theorem requestCreds_request_shape (url user pass : String)
    (send : HttpRequest → HttpResult)
    (decode : String → Except String credsResponse) :
    (requestCreds url user pass true send decode).requests
      = [buildCredsRequest url user pass] ∧
    (requestCreds url user pass true send decode).clientConfig.insecureSkipVerify = true ∧
    (buildCredsRequest url user pass).method = "POST" ∧
    (buildCredsRequest url user pass).url = url ∧
    (buildCredsRequest url user pass).body
      = "\x7b \"fileName\":\"TestFile\", \"isPrivate\": \"false\" \x7d" ∧
    (buildCredsRequest url user pass).contentType = "application/json" ∧
    (buildCredsRequest url user pass).basicAuthUser = user ∧
    (buildCredsRequest url user pass).basicAuthPass = pass := by
  have h : (requestCreds url user pass true send decode).requests
      = [buildCredsRequest url user pass] ∧
      (requestCreds url user pass true send decode).clientConfig.insecureSkipVerify
        = true := by
    cases hs : send (buildCredsRequest url user pass) with
    | transportErr msg => simp [requestCreds, hs]
    | response r =>
      by_cases h200 : r.statusCode = 200
      · cases hd : decode r.body with
        | error msg => simp [requestCreds, hs, h200, hd]
        | ok c2 => simp [requestCreds, hs, h200, hd]
      · simp [requestCreds, hs, h200]
  exact ⟨h.1, h.2, rfl, rfl, rfl, rfl, rfl, rfl⟩

/-- Claim C5: the pipeline is strictly sequential — in every run the
credential-fetch stage is preceded by the archive stage and the upload stage
by the credential-fetch stage — and whenever the credential fetch fails
(HTTP 500 included), the run dies fatally with no upload event and no upload
invocation. -/
theorem mainRun_sequential (p : MainParams) (send : HttpRequest → HttpResult)
    (decode : String → Except String credsResponse) :
    stageBefore (mainRun p send decode).trace .archiveEv .credsEv ∧
    stageBefore (mainRun p send decode).trace .credsEv .uploadEv ∧
    (∀ e, (requestCreds p.hydraURL p.hydraUser p.hydraPass p.urlOk send decode).result
        = .error e →
      PipeEvent.uploadEv ∉ (mainRun p send decode).trace ∧
      (mainRun p send decode).fatal = true ∧
      (mainRun p send decode).uploadCalls = []) := by
  refine ⟨?_, ?_, ?_⟩
  · rcases mainRun_trace_cases p send decode with h | h | h | h | h | h <;> rw [h] <;> decide
  · rcases mainRun_trace_cases p send decode with h | h | h | h | h | h <;> rw [h] <;> decide
  · intro e he
    unfold mainRun
    cases hcr : p.createOk with
    | false => simp [hcr]
    | true =>
      cases har : (dirToTar p.rootOpenOk p.root).err with
      | some e2 => simp [hcr, har]
      | none => simp [hcr, har, he]

/-- Witness for C5: with a transport answering HTTP 500, the run is fatal
and makes no upload attempt. -/
theorem mainRun_sequential_witness :
    PipeEvent.uploadEv ∉ (mainRun pEx send500 decodeEx).trace ∧
    (mainRun pEx send500 decodeEx).fatal = true ∧
    (mainRun pEx send500 decodeEx).uploadCalls = [] :=
  (mainRun_sequential pEx send500 decodeEx).2.2
    (.statusErr "500 Internal Server Error") rfl

/-- Claim C6: when archiving, the credential fetch, the rewind and session
creation succeed, the uploader is invoked exactly once, with the sink at
offset 0 and with exactly the bucket, key, region and
access/secret/session-token credentials of the decoded response. -/
theorem mainRun_upload_exact (p : MainParams) (send : HttpRequest → HttpResult)
    (decode : String → Except String credsResponse) (c : credsResponse)
    (hcr : p.createOk = true)
    (har : (dirToTar p.rootOpenOk p.root).err = none)
    (hcd : (requestCreds p.hydraURL p.hydraUser p.hydraPass p.urlOk send decode).result
      = .ok c)
    (hrew : p.rewindOk = true) (hsess : p.sessionOk = true) :
    (mainRun p send decode).uploadCalls
      = [{ bucket := c.bucketName, key := c.key,
           session := { region := c.region, creds := c.toAWSCredentials },
           bodyPos := 0 }] := by
  unfold mainRun
  simp only [hcr, if_true, har, hcd, hrew]
  unfold credsResponse.uploadFile credsResponse.createSession
  simp only [hsess, if_true]
  cases p.transferOk <;> simp [uploadFileToS3]

/-- Witness for C6 with a 200 transport: exactly one upload call, at offset
0, carrying the sample response's bucket, key, region and credentials. -/
theorem mainRun_upload_exact_witness :
    (mainRun pEx sendOk decodeEx).uploadCalls
      = [{ bucket := sampleCreds.bucketName, key := sampleCreds.key,
           session := { region := sampleCreds.region,
                        creds := sampleCreds.toAWSCredentials },
           bodyPos := 0 }] :=
  mainRun_upload_exact pEx sendOk decodeEx sampleCreds (by decide) (by decide)
    rfl (by decide) (by decide)

/-- Claim C7: every entry name `dirToTar` ever writes is the root-relative
path of a visited file; on a tree with well-formed entry names it is
non-empty, contains no parent-directory segment, and its rendered
slash-joined form does not begin with a path separator. -/
theorem entry_paths_safe (ok : Bool) (root : List FSNode)
    (hv : validChildren root = true) :
    ∀ e ∈ (dirToTar ok root).ws.tar.entries,
      e.header.name ∈ (walkFiles root).map (fun p => p.1) ∧
      e.header.name ≠ [] ∧
      (∀ c ∈ e.header.name, c ≠ "..") ∧
      (renderPath e.header.name).head? ≠ some '/' := by
  intro e he
  have hmem := dirToTar_entry_names ok root e he
  rcases List.mem_map.mp hmem with ⟨p, hp, hname⟩
  obtain ⟨s, hs, hne, hgood⟩ := visitsOfChildren_good [] root hv p hp
  rw [List.nil_append] at hs
  have hes : e.header.name = s := by rw [← hname, hs]
  refine ⟨hmem, by rw [hes]; exact hne, ?_, ?_⟩
  · intro c hc
    exact (goodName_spec c (hgood c (by rwa [hes] at hc))).2.1
  · rcases hcs : s with _ | ⟨c, s2⟩
    · exact absurd hcs hne
    · have hcgood := goodName_spec c (hgood c (by rw [hcs]; simp))
      rw [hes, hcs]
      rw [renderPath_head c s2 hcgood.1]
      rcases hcd : c.data with _ | ⟨x, xs⟩
      · exact absurd hcd hcgood.1
      · have hx : x ≠ '/' := by
          intro hxeq
          apply hcgood.2.2
          rw [hcd, hxeq]
          simp
        simp [hcd, hx]

/-- Witness for C7 on the sample tree. -/
theorem entry_paths_safe_witness :
    validChildren sampleTree = true ∧
    ∀ e ∈ (dirToTar true sampleTree).ws.tar.entries,
      e.header.name ∈ (walkFiles sampleTree).map (fun p => p.1) ∧
      e.header.name ≠ [] ∧
      (∀ c ∈ e.header.name, c ≠ "..") ∧
      (renderPath e.header.name).head? ≠ some '/' :=
  ⟨by decide, entry_paths_safe true sampleTree (by decide)⟩

end HydraS3
